import Mathlib

/-!
Verification of the in-memory build store of the go-kit-build-service
repository.  The store (`inmemService` in the source) is a Go map from
string IDs to `Build` records guarded by a reader/writer lock; each of the
five CRUD operations holds the lock for its full check-then-act sequence,
so every operation is atomic and the observable behaviour is that of the
sequential functions embedded below.  The Go map is embedded as an
association list with first-match lookup, overwrite-on-insert and
key-removing erase; every reachable store has pairwise-distinct keys, so
this is a faithful model of the map.
-/

/-- A single cloud build record (`Build` in the source): an `ID` string and
an optional `Name` string, where the empty string means "unset". -/
structure Build where
  ID : String
  Name : String
deriving DecidableEq

/-- The error taxonomy of the service: `ErrInconsistentIDs`,
`ErrAlreadyExists` and `ErrNotFound` in the source. -/
inductive ServiceError where
  | inconsistentIDs
  | alreadyExists
  | notFound
deriving DecidableEq

/-- The store state: the `m map[string]Build` field of `inmemService`,
embedded as an association list. -/
abbrev Store := List (String × Build)

/-- Go map read `b, ok := s.m[id]`: first matching key. -/
def Store.lookup : Store → String → Option Build
  | [], _ => none
  | (k, b) :: t, id => if k = id then some b else Store.lookup t id

/-- Go map write `s.m[id] = b`: overwrite the entry if the key is present,
otherwise append a new entry. -/
def Store.insert : Store → String → Build → Store
  | [], id, b => [(id, b)]
  | (k, v) :: t, id, b =>
      if k = id then (id, b) :: t else (k, v) :: Store.insert t id b

/-- Go map delete `delete(s.m, id)`: remove every entry with the key. -/
def Store.erase : Store → String → Store
  | [], _ => []
  | (k, v) :: t, id =>
      if k = id then Store.erase t id else (k, v) :: Store.erase t id

/-- `inmemService.PostBuild` (Create): fails with `alreadyExists` when the
build's ID is already present, otherwise stores the build under its ID. -/
def postBuild (s : Store) (b : Build) : Except ServiceError Unit × Store :=
  match s.lookup b.ID with
  | some _ => (Except.error ServiceError.alreadyExists, s)
  | none => (Except.ok (), s.insert b.ID b)

/-- `inmemService.GetBuild` (Read): returns the stored build, or fails with
`notFound`; the store is never modified. -/
def getBuild (s : Store) (id : String) : Except ServiceError Build × Store :=
  match s.lookup id with
  | some b => (Except.ok b, s)
  | none => (Except.error ServiceError.notFound, s)

/-- `inmemService.PutBuild` (Replace): fails with `inconsistentIDs` when
the path id and the body's ID disagree, otherwise stores the build under
`id`, creating or overwriting. -/
def putBuild (s : Store) (id : String) (b : Build) :
    Except ServiceError Unit × Store :=
  if id ≠ b.ID then (Except.error ServiceError.inconsistentIDs, s)
  else (Except.ok (), s.insert id b)

/-- `inmemService.PatchBuild` (PartialUpdate): fails with
`inconsistentIDs` when the body's ID is non-empty and disagrees with the
path id, then with `notFound` when no record exists under `id`; otherwise
overwrites the stored record's `Name` when the body's `Name` is non-empty
and writes the record back. -/
def patchBuild (s : Store) (id : String) (b : Build) :
    Except ServiceError Unit × Store :=
  if b.ID ≠ "" ∧ id ≠ b.ID then (Except.error ServiceError.inconsistentIDs, s)
  else
    match s.lookup id with
    | none => (Except.error ServiceError.notFound, s)
    | some existing =>
        let updated :=
          if b.Name ≠ "" then { existing with Name := b.Name } else existing
        (Except.ok (), s.insert id updated)

/-- `inmemService.DeleteBuild` (Delete): fails with `notFound` when no
record exists under `id`, otherwise removes the record. -/
def deleteBuild (s : Store) (id : String) : Except ServiceError Unit × Store :=
  match s.lookup id with
  | none => (Except.error ServiceError.notFound, s)
  | some _ => (Except.ok (), s.erase id)

/-- A store state reachable from the empty map (`NewInmemService`) by any
sequence of the five operations with arbitrary arguments. -/
inductive Reachable : Store → Prop where
  | empty : Reachable []
  | post (s : Store) (b : Build) : Reachable s → Reachable (postBuild s b).2
  | get (s : Store) (id : String) : Reachable s → Reachable (getBuild s id).2
  | put (s : Store) (id : String) (b : Build) :
      Reachable s → Reachable (putBuild s id b).2
  | patch (s : Store) (id : String) (b : Build) :
      Reachable s → Reachable (patchBuild s id b).2
  | del (s : Store) (id : String) : Reachable s → Reachable (deleteBuild s id).2

/-- The store invariant: keys are pairwise distinct (no two records share
an ID) and every stored record's `ID` field equals its key. -/
def StoreInv (s : Store) : Prop :=
  (s.map Prod.fst).Nodup ∧ ∀ p ∈ s, p.2.ID = p.1

/-- Sequential execution of a batch of Create calls; because each call
holds the write lock for its whole check-then-act sequence, any concurrent
execution of the batch is observationally equal to `runCreates` on some
ordering of the batch. -/
def runCreates (s : Store) : List Build → List (Except ServiceError Unit) × Store
  | [] => ([], s)
  | b :: rest =>
      let r := postBuild s b
      let more := runCreates r.2 rest
      (r.1 :: more.1, more.2)

-- Basic lemmas about the map embedding.

theorem lookup_insert_self (s : Store) (k : String) (b : Build) :
    (s.insert k b).lookup k = some b := by
  induction s with
  | nil => simp [Store.insert, Store.lookup]
  | cons p t ih =>
      obtain ⟨k0, v0⟩ := p
      by_cases h : k0 = k
      · simp [Store.insert, Store.lookup, h]
      · simp [Store.insert, Store.lookup, h, ih]

theorem lookup_insert_ne (s : Store) (k k2 : String) (b : Build)
    (h : k2 ≠ k) : (s.insert k b).lookup k2 = s.lookup k2 := by
  induction s with
  | nil => simp [Store.insert, Store.lookup, Ne.symm h]
  | cons p t ih =>
      obtain ⟨k0, v0⟩ := p
      by_cases hk : k0 = k
      · subst hk
        simp [Store.insert, Store.lookup, Ne.symm h]
      · simp [Store.insert, Store.lookup, hk, ih]

theorem lookup_erase_self (s : Store) (k : String) :
    (s.erase k).lookup k = none := by
  induction s with
  | nil => simp [Store.erase, Store.lookup]
  | cons p t ih =>
      obtain ⟨k0, v0⟩ := p
      by_cases h : k0 = k <;> simp [Store.erase, Store.lookup, h, ih]

theorem mem_of_lookup_eq_some {s : Store} {k : String} {b : Build}
    (h : s.lookup k = some b) : (k, b) ∈ s := by
  induction s with
  | nil => simp [Store.lookup] at h
  | cons p t ih =>
      obtain ⟨k0, v0⟩ := p
      by_cases hk : k0 = k
      · subst hk
        simp [Store.lookup] at h
        simp [h]
      · simp [Store.lookup, hk] at h
        exact List.mem_cons_of_mem _ (ih h)

theorem mem_insert {s : Store} {k : String} {b : Build} {p : String × Build}
    (h : p ∈ s.insert k b) : p = (k, b) ∨ p ∈ s := by
  induction s with
  | nil => simpa [Store.insert] using h
  | cons q t ih =>
      obtain ⟨k0, v0⟩ := q
      by_cases hk : k0 = k
      · simp [Store.insert, hk] at h
        rcases h with h | h
        · exact Or.inl h
        · exact Or.inr (List.mem_cons_of_mem _ h)
      · simp [Store.insert, hk] at h
        rcases h with h | h
        · exact Or.inr (by simp [h])
        · rcases ih h with h2 | h2
          · exact Or.inl h2
          · exact Or.inr (List.mem_cons_of_mem _ h2)

theorem mem_keys_insert {s : Store} {k x : String} {b : Build}
    (h : x ∈ (s.insert k b).map Prod.fst) :
    x = k ∨ x ∈ s.map Prod.fst := by
  simp only [List.mem_map] at h
  obtain ⟨p, hp, hx⟩ := h
  rcases mem_insert hp with h2 | h2
  · subst h2
    exact Or.inl hx.symm
  · exact Or.inr (by exact List.mem_map.mpr ⟨p, h2, hx⟩)

theorem nodup_keys_insert {s : Store} {k : String} {b : Build}
    (h : (s.map Prod.fst).Nodup) :
    ((s.insert k b).map Prod.fst).Nodup := by
  induction s with
  | nil => simp [Store.insert]
  | cons p t ih =>
      obtain ⟨k0, v0⟩ := p
      simp only [List.map_cons, List.nodup_cons] at h
      by_cases hk : k0 = k
      · subst hk
        simpa [Store.insert, List.nodup_cons] using h
      · have heq : Store.insert ((k0, v0) :: t) k b =
            (k0, v0) :: Store.insert t k b := by
          simp [Store.insert, hk]
        rw [heq]
        simp only [List.map_cons]
        refine List.nodup_cons.mpr ⟨?_, ih h.2⟩
        intro hmem
        rcases mem_keys_insert (s := t) hmem with h2 | h2
        · exact hk h2
        · exact h.1 h2

theorem mem_erase {s : Store} {k : String} {p : String × Build}
    (h : p ∈ s.erase k) : p ∈ s := by
  induction s with
  | nil => simp [Store.erase] at h
  | cons q t ih =>
      obtain ⟨k0, v0⟩ := q
      by_cases hk : k0 = k
      · have h2 : p ∈ Store.erase t k := by simpa [Store.erase, hk] using h
        exact List.mem_cons_of_mem _ (ih h2)
      · have h2 : p = (k0, v0) ∨ p ∈ Store.erase t k := by
          simpa [Store.erase, hk] using h
        rcases h2 with h2 | h2
        · simp [h2]
        · exact List.mem_cons_of_mem _ (ih h2)

theorem keys_erase_sublist (s : Store) (k : String) :
    ((s.erase k).map Prod.fst).Sublist (s.map Prod.fst) := by
  induction s with
  | nil => simp [Store.erase]
  | cons q t ih =>
      obtain ⟨k0, v0⟩ := q
      by_cases hk : k0 = k
      · simp only [Store.erase, hk, if_pos rfl, List.map_cons]
        exact ih.trans (List.sublist_cons_self _ _)
      · simp only [Store.erase, if_neg hk, List.map_cons]
        exact ih.cons₂ _

theorem storeInv_insert {s : Store} {k : String} {b : Build}
    (h : StoreInv s) (hb : b.ID = k) : StoreInv (s.insert k b) := by
  refine ⟨nodup_keys_insert h.1, ?_⟩
  intro p hp
  rcases mem_insert hp with h2 | h2
  · subst h2
    exact hb
  · exact h.2 p h2

theorem storeInv_erase {s : Store} {k : String}
    (h : StoreInv s) : StoreInv (s.erase k) := by
  refine ⟨(keys_erase_sublist s k).nodup h.1, ?_⟩
  intro p hp
  exact h.2 p (mem_erase hp)

theorem getBuild_snd (s : Store) (id : String) : (getBuild s id).2 = s := by
  cases h : s.lookup id <;> simp [getBuild, h]

theorem storeInv_post {s : Store} (b : Build)
    (h : StoreInv s) : StoreInv (postBuild s b).2 := by
  cases h2 : s.lookup b.ID with
  | some r => simpa [postBuild, h2] using h
  | none =>
      simp only [postBuild, h2]
      exact storeInv_insert h rfl

theorem storeInv_put {s : Store} (id : String) (b : Build)
    (h : StoreInv s) : StoreInv (putBuild s id b).2 := by
  by_cases h2 : id ≠ b.ID
  · simpa [putBuild, h2] using h
  · have hid : id = b.ID := not_not.mp h2
    simp only [putBuild, if_neg h2]
    exact storeInv_insert h hid.symm

theorem storeInv_patch {s : Store} (id : String) (b : Build)
    (h : StoreInv s) : StoreInv (patchBuild s id b).2 := by
  by_cases h2 : b.ID ≠ "" ∧ id ≠ b.ID
  · simpa [patchBuild, h2] using h
  · cases h3 : s.lookup id with
    | none => simpa [patchBuild, h2, h3] using h
    | some existing =>
        have hmem : (id, existing) ∈ s := mem_of_lookup_eq_some h3
        have hid : existing.ID = id := h.2 (id, existing) hmem
        simp only [patchBuild, if_neg h2, h3]
        by_cases h4 : b.Name ≠ ""
        · simp only [if_pos h4]
          exact storeInv_insert h hid
        · simp only [if_neg h4]
          exact storeInv_insert h hid

theorem storeInv_delete {s : Store} (id : String)
    (h : StoreInv s) : StoreInv (deleteBuild s id).2 := by
  cases h2 : s.lookup id with
  | none => simpa [deleteBuild, h2] using h
  | some r =>
      simp only [deleteBuild, h2]
      exact storeInv_erase h

/-- Claim C1: in every state reachable from the empty store by any sequence
of Create, Read, Replace, PartialUpdate and Delete calls, no two stored
records share an ID and every stored record's `ID` field equals its key;
every operation preserves this invariant. -/
theorem store_invariant_reachable (s : Store) (h : Reachable s) :
    StoreInv s := by
  induction h with
  | empty => exact ⟨List.nodup_nil, by simp⟩
  | post s b _ ih => exact storeInv_post b ih
  | get s id _ ih => simpa [getBuild_snd] using ih
  | put s id b _ ih => exact storeInv_put id b ih
  | patch s id b _ ih => exact storeInv_patch id b ih
  | del s id _ ih => exact storeInv_delete id ih

/-- Witness for C1: the invariant holds in the concrete state obtained by
creating one build in the fresh store. -/
theorem store_invariant_reachable_witness :
    StoreInv (postBuild [] ⟨"a", "n"⟩).2 :=
  store_invariant_reachable _ (Reachable.post [] ⟨"a", "n"⟩ Reachable.empty)

/-- Claim C2: for every build whose ID is not present, Create succeeds and
a subsequent Read of that ID returns the build unchanged. -/
theorem create_then_read (s : Store) (b : Build)
    (h : s.lookup b.ID = none) :
    (postBuild s b).1 = Except.ok () ∧
    (getBuild (postBuild s b).2 b.ID).1 = Except.ok b := by
  simp [postBuild, h, getBuild, lookup_insert_self]

/-- Witness for C2 at a concrete fresh build. -/
theorem create_then_read_witness :
    (postBuild [] ⟨"a", "x"⟩).1 = Except.ok () ∧
    (getBuild (postBuild [] ⟨"a", "x"⟩).2 "a").1 =
      Except.ok (⟨"a", "x"⟩ : Build) :=
  create_then_read [] ⟨"a", "x"⟩ rfl

/-- Claim C3: Create on an ID that is already stored fails with
`alreadyExists`, leaves the store unchanged, and the first-created record
remains stored under that ID. -/
theorem create_duplicate (s : Store) (b r : Build)
    (h : s.lookup b.ID = some r) :
    postBuild s b = (Except.error ServiceError.alreadyExists, s) ∧
    ((postBuild s b).2).lookup b.ID = some r := by
  simp [postBuild, h]

/-- Witness for C3: a second create of ID "a" fails and the first record
remains. -/
theorem create_duplicate_witness :
    postBuild [("a", ⟨"a", "old"⟩)] ⟨"a", "new"⟩ =
      (Except.error ServiceError.alreadyExists, [("a", ⟨"a", "old"⟩)]) ∧
    ((postBuild [("a", ⟨"a", "old"⟩)] ⟨"a", "new"⟩).2).lookup "a" =
      some ⟨"a", "old"⟩ :=
  create_duplicate [("a", ⟨"a", "old"⟩)] ⟨"a", "new"⟩ ⟨"a", "old"⟩ rfl

/-- Claim C4: Replace fails with `inconsistentIDs` exactly when the body's
ID differs from the path id; when they agree it succeeds whether or not a
record existed, and a subsequent Read returns the new build. -/
theorem replace_semantics (s : Store) (id : String) (b : Build) :
    ((putBuild s id b).1 = Except.error ServiceError.inconsistentIDs ↔
      b.ID ≠ id) ∧
    (b.ID = id →
      (putBuild s id b).1 = Except.ok () ∧
      (getBuild (putBuild s id b).2 id).1 = Except.ok b) := by
  constructor
  · by_cases h : id = b.ID
    · simp [putBuild, h]
    · simp [putBuild, h, Ne.symm h]
  · intro hid
    have h : ¬ id ≠ b.ID := by simp [hid]
    simp [putBuild, h, getBuild, hid.symm, lookup_insert_self]

/-- Witness for C4: a matching-ID replace into the empty store succeeds and
is readable. -/
theorem replace_semantics_witness :
    (putBuild [] "a" ⟨"a", "n"⟩).1 = Except.ok () ∧
    (getBuild (putBuild [] "a" ⟨"a", "n"⟩).2 "a").1 =
      Except.ok (⟨"a", "n"⟩ : Build) :=
  (replace_semantics [] "a" ⟨"a", "n"⟩).2 rfl

/-- Claim C5: PartialUpdate fails with `inconsistentIDs` when the body's
ID is non-empty and differs from the path id; when that check passes and
no record exists under `id` it fails with `notFound`; and it never creates
a record: a key absent before the call is still absent after it. -/
theorem patch_error_semantics (s : Store) (id : String) (b : Build) :
    (b.ID ≠ "" → id ≠ b.ID →
      (patchBuild s id b).1 = Except.error ServiceError.inconsistentIDs) ∧
    (¬(b.ID ≠ "" ∧ id ≠ b.ID) → s.lookup id = none →
      (patchBuild s id b).1 = Except.error ServiceError.notFound) ∧
    (s.lookup id = none → ((patchBuild s id b).2).lookup id = none) := by
  refine ⟨?_, ?_, ?_⟩
  · intro h1 h2
    simp [patchBuild, h1, h2]
  · intro h1 h2
    simp [patchBuild, h1, h2]
  · intro h1
    by_cases h2 : b.ID ≠ "" ∧ id ≠ b.ID
    · simp only [patchBuild, if_pos h2]
      exact h1
    · simp [patchBuild, h2, h1]

/-- Witness for C5 at concrete inputs: an ID-mismatching patch, a patch of
a missing key, and absence preserved after a failing patch. -/
theorem patch_error_semantics_witness :
    (patchBuild [] "a" ⟨"b", "n"⟩).1 =
      Except.error ServiceError.inconsistentIDs ∧
    (patchBuild [] "a" ⟨"", "n"⟩).1 = Except.error ServiceError.notFound ∧
    ((patchBuild [] "a" ⟨"b", "n"⟩).2).lookup "a" = none :=
  ⟨(patch_error_semantics [] "a" ⟨"b", "n"⟩).1 (by decide) (by decide),
   (patch_error_semantics [] "a" ⟨"", "n"⟩).2.1 (by decide) rfl,
   (patch_error_semantics [] "a" ⟨"b", "n"⟩).2.2 rfl⟩

/-- Claim C6: on an accepted PartialUpdate of a stored record, a non-empty
body Name overwrites the stored Name, an empty body Name leaves the stored
record unchanged, and the stored record's `ID` field is never mutated. -/
theorem patch_update_semantics (s : Store) (id : String) (b : Build)
    (r : Build) (hr : s.lookup id = some r)
    (hok : (patchBuild s id b).1 = Except.ok ()) :
    (b.Name ≠ "" →
      ((patchBuild s id b).2).lookup id = some { r with Name := b.Name }) ∧
    (b.Name = "" → ((patchBuild s id b).2).lookup id = some r) ∧
    (∀ r2, ((patchBuild s id b).2).lookup id = some r2 → r2.ID = r.ID) := by
  have hcond : ¬(b.ID ≠ "" ∧ id ≠ b.ID) := by
    intro hc
    simp [patchBuild, hc] at hok
  have hstore : ((patchBuild s id b).2).lookup id =
      some (if b.Name ≠ "" then { r with Name := b.Name } else r) := by
    simp [patchBuild, hcond, hr, lookup_insert_self]
  refine ⟨?_, ?_, ?_⟩
  · intro h3
    rw [hstore]
    simp [h3]
  · intro h3
    rw [hstore]
    simp [h3]
  · intro r2 h4
    rw [hstore] at h4
    by_cases h3 : b.Name ≠ ""
    · simp [h3] at h4
      rw [← h4]
    · simp [h3] at h4
      rw [← h4]

/-- Witness for C6: patching stored record (x, old) with Name "new"
results in (x, new). -/
theorem patch_update_semantics_witness :
    ((patchBuild [("x", ⟨"x", "old"⟩)] "x" ⟨"x", "new"⟩).2).lookup "x" =
      some (⟨"x", "new"⟩ : Build) :=
  (patch_update_semantics [("x", ⟨"x", "old"⟩)] "x" ⟨"x", "new"⟩
      ⟨"x", "old"⟩ rfl rfl).1 (by decide)

/-- Claim C7: Delete of an existing record succeeds and makes a subsequent
Read fail with `notFound`; Delete of a missing id fails with `notFound`
and leaves the whole collection unchanged. -/
theorem delete_semantics (s : Store) (id : String) :
    (∀ r, s.lookup id = some r →
      (deleteBuild s id).1 = Except.ok () ∧
      (getBuild (deleteBuild s id).2 id).1 =
        Except.error ServiceError.notFound) ∧
    (s.lookup id = none →
      deleteBuild s id = (Except.error ServiceError.notFound, s)) := by
  constructor
  · intro r h
    simp [deleteBuild, h, getBuild, lookup_erase_self]
  · intro h
    simp [deleteBuild, h]

/-- Witness for C7: deleting the one stored record then reading it fails,
and deleting from the empty store fails leaving it empty. -/
theorem delete_semantics_witness :
    ((deleteBuild [("a", ⟨"a", "n"⟩)] "a").1 = Except.ok () ∧
      (getBuild (deleteBuild [("a", ⟨"a", "n"⟩)] "a").2 "a").1 =
        Except.error ServiceError.notFound) ∧
    deleteBuild [] "a" = (Except.error ServiceError.notFound, []) :=
  ⟨(delete_semantics [("a", ⟨"a", "n"⟩)] "a").1 ⟨"a", "n"⟩ rfl,
   (delete_semantics [] "a").2 rfl⟩

/-- Claim C8: atomicity on error: whenever any of the five operations
returns an error, the store map after the call equals the store map before
it. -/
theorem error_atomicity (s : Store) (id : String) (b : Build)
    (e : ServiceError) :
    ((postBuild s b).1 = Except.error e → (postBuild s b).2 = s) ∧
    ((getBuild s id).1 = Except.error e → (getBuild s id).2 = s) ∧
    ((putBuild s id b).1 = Except.error e → (putBuild s id b).2 = s) ∧
    ((patchBuild s id b).1 = Except.error e → (patchBuild s id b).2 = s) ∧
    ((deleteBuild s id).1 = Except.error e → (deleteBuild s id).2 = s) := by
  refine ⟨?_, ?_, ?_, ?_, ?_⟩
  · cases h : s.lookup b.ID <;> simp [postBuild, h]
  · exact fun _ => getBuild_snd s id
  · by_cases h : id ≠ b.ID <;> simp [putBuild, h]
  · by_cases h : b.ID ≠ "" ∧ id ≠ b.ID
    · simp [patchBuild, h]
    · cases h2 : s.lookup id <;> simp [patchBuild, h, h2]
  · cases h : s.lookup id <;> simp [deleteBuild, h]

/-- Witness for C8: a failing duplicate create leaves the concrete store
unchanged. -/
theorem error_atomicity_witness :
    (postBuild [("a", ⟨"a", "n"⟩)] ⟨"a", "m"⟩).2 = [("a", ⟨"a", "n"⟩)] :=
  (error_atomicity [("a", ⟨"a", "n"⟩)] "a" ⟨"a", "m"⟩
      ServiceError.alreadyExists).1 rfl

/-- Claim C10: Create does not validate that the ID is non-empty: when no
record is stored under the empty-string key, creating a build whose ID is
the empty string succeeds, stores it under the key "", and it is
retrievable by reading "". -/
theorem create_empty_id (s : Store) (n : String)
    (h : s.lookup "" = none) :
    (postBuild s ⟨"", n⟩).1 = Except.ok () ∧
    ((postBuild s ⟨"", n⟩).2).lookup "" = some ⟨"", n⟩ ∧
    (getBuild (postBuild s ⟨"", n⟩).2 "").1 = Except.ok ⟨"", n⟩ := by
  simp [postBuild, h, getBuild, lookup_insert_self]

/-- Witness for C10 at the empty store. -/
theorem create_empty_id_witness :
    (postBuild [] ⟨"", "n"⟩).1 = Except.ok () ∧
    ((postBuild [] ⟨"", "n"⟩).2).lookup "" = some ⟨"", "n"⟩ ∧
    (getBuild (postBuild [] ⟨"", "n"⟩).2 "").1 =
      Except.ok (⟨"", "n"⟩ : Build) :=
  create_empty_id [] "n" rfl

theorem runCreates_lookup_not_mem (bs : List Build) (s : Store) (k : String)
    (h : k ∉ bs.map Build.ID) :
    ((runCreates s bs).2).lookup k = s.lookup k := by
  induction bs generalizing s with
  | nil => simp [runCreates]
  | cons b rest ih =>
      simp only [List.map_cons, List.mem_cons, not_or] at h
      obtain ⟨h1, h2⟩ := h
      simp only [runCreates]
      rw [ih _ h2]
      cases h3 : s.lookup b.ID with
      | some r => simp [postBuild, h3]
      | none => simp [postBuild, h3, lookup_insert_ne _ _ _ _ h1]

theorem runCreates_existing_all_fail (bs : List Build) (s : Store)
    (i : String) (v : Build) (hv : s.lookup i = some v)
    (hall : ∀ x ∈ bs, x.ID = i) :
    runCreates s bs =
      (bs.map fun _ => Except.error ServiceError.alreadyExists, s) := by
  induction bs generalizing s with
  | nil => simp [runCreates]
  | cons b rest ih =>
      have hb : b.ID = i := hall b (List.mem_cons_self b rest)
      have hpost : postBuild s b =
          (Except.error ServiceError.alreadyExists, s) := by
        simp [postBuild, hb, hv]
      have hrest := ih s hv (fun x hx => hall x (List.mem_cons_of_mem _ hx))
      simp [runCreates, hpost, hrest]

theorem runCreates_distinct (bs : List Build) (s : Store)
    (hnd : (bs.map Build.ID).Nodup)
    (hfresh : ∀ x ∈ bs, s.lookup x.ID = none) :
    (runCreates s bs).1 = bs.map (fun _ => Except.ok ()) ∧
    ∀ x ∈ bs, ((runCreates s bs).2).lookup x.ID = some x := by
  induction bs generalizing s with
  | nil => simp [runCreates]
  | cons b rest ih =>
      simp only [List.map_cons, List.nodup_cons] at hnd
      obtain ⟨hb_not, hnd2⟩ := hnd
      have hbfresh : s.lookup b.ID = none :=
        hfresh b (List.mem_cons_self b rest)
      have hpost : postBuild s b = (Except.ok (), s.insert b.ID b) := by
        simp [postBuild, hbfresh]
      have hfresh2 : ∀ x ∈ rest, (s.insert b.ID b).lookup x.ID = none := by
        intro x hx
        have hne : x.ID ≠ b.ID := by
          intro he
          exact hb_not (he ▸ List.mem_map.mpr ⟨x, hx, rfl⟩)
        rw [lookup_insert_ne _ _ _ _ hne]
        exact hfresh x (List.mem_cons_of_mem _ hx)
      obtain ⟨ihr, ihl⟩ := ih (s.insert b.ID b) hnd2 hfresh2
      constructor
      · simp [runCreates, hpost, ihr]
      · intro x hx
        rcases List.mem_cons.mp hx with he | hx2
        · subst he
          simp only [runCreates, hpost]
          rw [runCreates_lookup_not_mem rest _ _ hb_not]
          exact lookup_insert_self s x.ID x
        · simp only [runCreates, hpost]
          exact ihl x hx2

/-- Claim C9: modelling concurrency by the serialization the write lock
enforces (each Create holds the lock for its whole check-then-act
sequence, so any concurrent execution equals `runCreates` on some ordering
of the calls): for every ordering, Create calls with distinct fresh IDs
all succeed and each created record is retrievable afterwards, and among
Create calls racing on one fresh ID exactly one succeeds (the first in
the serialization) while all the others fail with `alreadyExists`. -/
theorem concurrent_create_semantics (s : Store) (bs : List Build)
    (i : String) (b : Build) (rest : List Build) :
    ((bs.map Build.ID).Nodup → (∀ x ∈ bs, s.lookup x.ID = none) →
      (runCreates s bs).1 = bs.map (fun _ => Except.ok ()) ∧
      ∀ x ∈ bs, ((runCreates s bs).2).lookup x.ID = some x) ∧
    ((∀ x ∈ b :: rest, x.ID = i) → s.lookup i = none →
      (runCreates s (b :: rest)).1 =
        Except.ok () ::
          rest.map (fun _ => Except.error ServiceError.alreadyExists)) := by
  constructor
  · exact fun h1 h2 => runCreates_distinct bs s h1 h2
  · intro hall hni
    have hb : b.ID = i := hall b (List.mem_cons_self b rest)
    have hpost : postBuild s b = (Except.ok (), s.insert b.ID b) := by
      simp [postBuild, hb, hni]
    have hv : (s.insert b.ID b).lookup i = some b := by
      rw [hb]
      exact lookup_insert_self s i b
    have hrest := runCreates_existing_all_fail rest (s.insert b.ID b) i b hv
      (fun x hx => hall x (List.mem_cons_of_mem _ hx))
    simp [runCreates, hpost, hrest]

/-- Witness for C9: two distinct-ID creates both succeed and are
retrievable, and two creates racing on one ID yield one success and one
`alreadyExists`. -/
theorem concurrent_create_semantics_witness :
    ((runCreates [] [⟨"a", "1"⟩, ⟨"b", "2"⟩]).1 =
        [Except.ok (), Except.ok ()] ∧
      ∀ x ∈ [(⟨"a", "1"⟩ : Build), ⟨"b", "2"⟩],
        ((runCreates [] [⟨"a", "1"⟩, ⟨"b", "2"⟩]).2).lookup x.ID = some x) ∧
    (runCreates [] [⟨"c", "1"⟩, ⟨"c", "2"⟩]).1 =
      [Except.ok (), Except.error ServiceError.alreadyExists] :=
  ⟨(concurrent_create_semantics [] [⟨"a", "1"⟩, ⟨"b", "2"⟩] "c"
      ⟨"c", "1"⟩ [⟨"c", "2"⟩]).1 (by decide) (by decide),
   (concurrent_create_semantics [] [⟨"a", "1"⟩, ⟨"b", "2"⟩] "c"
      ⟨"c", "1"⟩ [⟨"c", "2"⟩]).2 (by decide) rfl⟩
